import Mathlib

/-!
Shallow embedding of `src/aes_gcm_iot.py` (class `AesGcmEnhanced`): a
nonce-disciplined AES-GCM session with a counter-based persistent IV
strategy and a combined-frame codec.

Bytes are modelled as natural numbers reduced modulo 256 where the code
produces them.  `os.urandom` is modelled by an explicit randomness world:
an infinite byte stream together with the position of the next unread
byte, so that each call consumes fresh stream bytes.  The external AES-GCM
engine (the `cryptography` library) is modelled as an abstract `Engine`
record; theorems that need its AEAD contract take it as a hypothesis and
are instantiated on the executable reference engine `refEngine`.
-/

namespace AesGcmIot

/-- Randomness world: an infinite byte stream plus the position of the next
unread byte.  Each `os.urandom` call reads consecutive fresh bytes. -/
structure World where
  stream : Nat → Nat
  pos : Nat

/-- Model of `os.urandom(n)`: the next `n` stream bytes (reduced mod 256),
advancing the position. -/
def urandom (n : Nat) (w : World) : List Nat × World :=
  ((List.range n).map (fun i => w.stream (w.pos + i) % 256), ⟨w.stream, w.pos + n⟩)

/-- `self._max_iv_counter = 2 ** 32 - 1` from `AesGcmEnhanced.__init__`. -/
def maxIvCounter : Nat := 2 ^ 32 - 1

/-- The mutable state of an `AesGcmEnhanced` session: the fields set by
`__init__` (key size configuration, optional key, nonce strategy flag,
IV counter, the 12-byte IV buffer, and the lazy-initialization flag). -/
structure State where
  key_size : Nat
  key_bytes : Nat
  key : Option (List Nat)
  persistent_iv : Bool
  iv_counter : Nat
  iv_buffer : List Nat
  initialized : Bool
deriving DecidableEq

/-- `AesGcmEnhanced.__init__(key_size, persistent_iv)`. -/
def mkState (key_size : Nat) (persistent_iv : Bool) : State :=
  ⟨key_size, key_size / 8, none, persistent_iv, 0, List.replicate 12 0, false⟩

/-- `AesGcmEnhanced.generate_key`: draws `key_bytes` random bytes and stores
them as the key; returns the key.  No other field is touched. -/
def generate_key (w : World) (s : State) : List Nat × World × State :=
  let (k, w') := urandom s.key_bytes w
  (k, w', { s with key := some k })

/-- The typed failures of the session.  `keyLength` is the `ValueError`
raised by `set_key`; `noKeySet` is the `ValueError` raised by `decrypt`
when no key is set; `authFailure` is the engine's `InvalidTag`;
`malformedFrame` is the frame-length error described by the spec for
`decrypt_combined`. -/
inductive Err where
  | keyLength
  | noKeySet
  | authFailure
  | malformedFrame
deriving DecidableEq

instance (ε α : Type) [DecidableEq ε] [DecidableEq α] :
    DecidableEq (Except ε α) := fun x y =>
  match x, y with
  | Except.ok a, Except.ok b =>
    if h : a = b then isTrue (congrArg Except.ok h)
    else isFalse (fun hc => h (Except.noConfusion hc id))
  | Except.ok _, Except.error _ => isFalse (fun hc => Except.noConfusion hc)
  | Except.error _, Except.ok _ => isFalse (fun hc => Except.noConfusion hc)
  | Except.error a, Except.error b =>
    if h : a = b then isTrue (congrArg Except.error h)
    else isFalse (fun hc => h (Except.noConfusion hc id))

/-- `AesGcmEnhanced.set_key`: rejects a key whose length differs from the
configured `key_bytes`, otherwise stores it.  No other field is touched. -/
def set_key (s : State) (key : List Nat) : Except Err State :=
  if key.length ≠ s.key_bytes then Except.error Err.keyLength
  else Except.ok { s with key := some key }

/-- `AesGcmEnhanced._init_iv_buffer`: under the persistent strategy, draw an
8-byte random prefix into bytes 0-7 of the IV buffer and reset the counter
to 0; in both strategies mark the session initialized. -/
def init_iv_buffer (w : World) (s : State) : World × State :=
  if s.persistent_iv then
    let (p, w') := urandom 8 w
    (w', { s with iv_buffer := p ++ s.iv_buffer.drop 8, iv_counter := 0,
                  initialized := true })
  else
    (w, { s with initialized := true })

/-- Big-endian 4-byte packing of a 32-bit value, as done by
`struct.pack_into('>I', buffer, 8, counter)`. -/
def packBE4 (n : Nat) : List Nat :=
  [n / 2 ^ 24 % 256, n / 2 ^ 16 % 256, n / 2 ^ 8 % 256, n % 256]

/-- `AesGcmEnhanced.generate_iv`: lazy first-time initialization; under the
random strategy a fresh 12-byte IV; under the persistent strategy a reset
via `_init_iv_buffer` when the counter is exhausted, then increment the
counter and pack it big-endian into bytes 8-11 of the buffer. -/
def generate_iv (w : World) (s : State) : List Nat × World × State :=
  let (w, s) := if s.initialized then (w, s) else init_iv_buffer w s
  if s.persistent_iv then
    let (w, s) := if s.iv_counter ≥ maxIvCounter then init_iv_buffer w s else (w, s)
    let c := s.iv_counter + 1
    let buf := s.iv_buffer.take 8 ++ packBE4 c
    (buf, w, { s with iv_counter := c, iv_buffer := buf })
  else
    let (riv, w') := urandom 12 w
    (riv, w', { s with iv_buffer := riv })

/-- Abstract AEAD engine capability (the external `cryptography` collaborator):
`enc key nonce aad plaintext = (ciphertext, tag)` and
`dec key nonce tag aad ciphertext` returning the plaintext or `none` on
tag-verification failure.  `none` for the aad means the Python code never
called `authenticate_additional_data`. -/
structure Engine where
  enc : List Nat → List Nat → Option (List Nat) → List Nat → List Nat × List Nat
  dec : List Nat → List Nat → List Nat → Option (List Nat) → List Nat →
        Option (List Nat)

/-- The aad actually handed to the engine: the Python guard
`if associated_data:` is false both for `None` and for the empty byte
string, so in those cases no aad reaches the engine. -/
def effAad : Option (List Nat) → Option (List Nat)
  | none => none
  | some a => if a = [] then none else some a

/-- The result of `AesGcmEnhanced.encrypt`: the returned triple together
with the successor world and session state. -/
structure EncResult where
  iv : List Nat
  ciphertext : List Nat
  tag : List Nat
  world : World
  state : State

/-- `AesGcmEnhanced.encrypt`: auto-generate a key when none is set, obtain
an IV from `generate_iv`, and delegate to the engine with the effective
aad. -/
def encrypt (e : Engine) (w : World) (s : State) (plaintext : List Nat)
    (associated_data : Option (List Nat)) : EncResult :=
  let (w, s) :=
    match s.key with
    | none => let r := generate_key w s; (r.2.1, r.2.2)
    | some _ => (w, s)
  let (iv, w, s) := generate_iv w s
  let (ct, tag) := e.enc (s.key.getD []) iv (effAad associated_data) plaintext
  ⟨iv, ct, tag, w, s⟩

/-- `AesGcmEnhanced.decrypt`: raises (`ValueError`) `noKeySet` when no key
is set, otherwise delegates to the engine, mapping tag-verification
failure to `authFailure`. -/
def decrypt (e : Engine) (s : State) (iv ciphertext tag : List Nat)
    (associated_data : Option (List Nat)) : Except Err (List Nat) :=
  match s.key with
  | none => Except.error Err.noKeySet
  | some k =>
    match e.dec k iv tag (effAad associated_data) ciphertext with
    | some p => Except.ok p
    | none => Except.error Err.authFailure

/-- Python slice assignment `buf[start:start+len(vals)] = vals` on a
bytearray whose tail is long enough. -/
def setSlice (buf : List Nat) (start : Nat) (vals : List Nat) : List Nat :=
  buf.take start ++ vals ++ buf.drop (start + vals.length)

/-- `AesGcmEnhanced.encrypt_combined`: encrypt, then copy IV, ciphertext and
tag into a pre-allocated buffer of the total size; returns the combined
bytes together with the IV and tag lengths. -/
def encrypt_combined (e : Engine) (w : World) (s : State) (plaintext : List Nat)
    (associated_data : Option (List Nat)) :
    (List Nat × Nat × Nat) × World × State :=
  let r := encrypt e w s plaintext associated_data
  let total := r.iv.length + r.ciphertext.length + r.tag.length
  let res0 := List.replicate total 0
  let res1 := setSlice res0 0 r.iv
  let res2 := setSlice res1 r.iv.length r.ciphertext
  let res3 := setSlice res2 (r.iv.length + r.ciphertext.length) r.tag
  ((res3, r.iv.length, r.tag.length), r.world, r.state)

/-- `AesGcmEnhanced.decrypt_combined`: slice the frame as
`combined_data[:iv_size]`, `combined_data[-tag_size:]` and
`combined_data[iv_size:-tag_size]` (Python clamping semantics, `tag_size`
positive) and delegate to `decrypt`.  There is no length validation. -/
def decrypt_combined (e : Engine) (s : State) (combined_data : List Nat)
    (iv_size tag_size : Nat) (associated_data : Option (List Nat)) :
    Except Err (List Nat) :=
  let iv := combined_data.take iv_size
  let tag := combined_data.drop (combined_data.length - tag_size)
  let ciphertext := (combined_data.take (combined_data.length - tag_size)).drop iv_size
  decrypt e s iv ciphertext tag associated_data

/-- Deterministic tag of the reference engine: a digest of key, nonce,
effective aad and ciphertext. -/
def tagFn (k n : List Nat) (a : Option (List Nat)) (c : List Nat) : List Nat :=
  [k.sum % 256, n.sum % 256, (a.getD []).sum % 256, c.sum % 256]

/-- Modelled from the spec: a concrete instance of the external AEAD engine
contract of §6 (the `cryptography` library is not part of this repository).
Encryption is the identity on the plaintext with a deterministic tag;
decryption verifies the tag and inverts encryption, so the round-trip
contract holds. -/
def refEngine : Engine where
  enc := fun k n a p => (p, tagFn k n a p)
  dec := fun k n t a c => if t = tagFn k n a c then some c else none

/-- World and state after `n` successive `generate_iv` calls. -/
def ivIter (n : Nat) (ws : World × State) : World × State :=
  match n with
  | 0 => ws
  | Nat.succ m =>
    let (w, s) := ivIter m ws
    let r := generate_iv w s
    (r.2.1, r.2.2)

/-- The nonce emitted by the `n`-th `generate_iv` call (1-indexed). -/
def nthIv (n : Nat) (ws : World × State) : List Nat :=
  let (w, s) := ivIter (n - 1) ws
  (generate_iv w s).1

/-- World and state after `n` successive `encrypt` calls with fixed
plaintext and aad. -/
def encIter (e : Engine) (p : List Nat) (a : Option (List Nat)) (n : Nat)
    (ws : World × State) : World × State :=
  match n with
  | 0 => ws
  | Nat.succ m =>
    let (w, s) := encIter e p a m ws
    let r := encrypt e w s p a
    (r.world, r.state)

/-- The (key, nonce) pair used by the `n`-th `encrypt` call (1-indexed). -/
def nthEncPair (e : Engine) (p : List Nat) (a : Option (List Nat)) (n : Nat)
    (ws : World × State) : Option (List Nat) × List Nat :=
  let (w, s) := encIter e p a (n - 1) ws
  let r := encrypt e w s p a
  (r.state.key, r.iv)

/-- The 8 bytes the next `urandom 8` call on `w` would return: the random
prefix drawn when `init_iv_buffer` runs on `w`. -/
def pfx8 (w : World) : List Nat :=
  (List.range 8).map (fun i => w.stream (w.pos + i) % 256)

theorem pfx8_length (w : World) : (pfx8 w).length = 8 := by
  simp [pfx8]

theorem urandom8_fst (w : World) : (urandom 8 w).1 = pfx8 w := rfl

theorem init_iv_buffer_key (w : World) (s : State) :
    ((init_iv_buffer w s).2).key = s.key := by
  unfold init_iv_buffer
  split <;> rfl

/-- Case analysis of `generate_iv` on an initialized, non-exhausted
persistent session: increment the counter and repack bytes 8-11. -/
theorem generate_iv_active (w : World) (s : State) (h1 : s.initialized = true)
    (h2 : s.persistent_iv = true) (h3 : s.iv_counter < maxIvCounter) :
    generate_iv w s =
      (s.iv_buffer.take 8 ++ packBE4 (s.iv_counter + 1), w,
       { s with iv_counter := s.iv_counter + 1,
                iv_buffer := s.iv_buffer.take 8 ++ packBE4 (s.iv_counter + 1) }) := by
  obtain ⟨ks, kb, key, piv, ctr, buf, init⟩ := s
  simp only at h1 h2 h3
  subst h1 h2
  simp [generate_iv, Nat.not_le.mpr h3]

/-- Case analysis of `generate_iv` on a fresh persistent session: draw the
8-byte prefix, then emit counter 1. -/
theorem generate_iv_fresh (w : World) (s : State) (h1 : s.initialized = false)
    (h2 : s.persistent_iv = true) :
    generate_iv w s =
      (pfx8 w ++ packBE4 1, ⟨w.stream, w.pos + 8⟩,
       { s with iv_counter := 1, iv_buffer := pfx8 w ++ packBE4 1,
                initialized := true }) := by
  obtain ⟨ks, kb, key, piv, ctr, buf, init⟩ := s
  simp only at h1 h2
  subst h1 h2
  have hmax : ¬ maxIvCounter ≤ 0 := by decide
  simp [generate_iv, init_iv_buffer, urandom, hmax, List.take_left' (pfx8_length w),
    pfx8]

/-- Case analysis of `generate_iv` on an initialized persistent session whose
counter is exhausted: reinitialize (new prefix, counter 0), then emit
counter 1. -/
theorem generate_iv_exhausted (w : World) (s : State) (h1 : s.initialized = true)
    (h2 : s.persistent_iv = true) (h3 : maxIvCounter ≤ s.iv_counter) :
    generate_iv w s =
      (pfx8 w ++ packBE4 1, ⟨w.stream, w.pos + 8⟩,
       { s with iv_counter := 1, iv_buffer := pfx8 w ++ packBE4 1 }) := by
  obtain ⟨ks, kb, key, piv, ctr, buf, init⟩ := s
  simp only at h1 h2 h3
  subst h1 h2
  simp [generate_iv, init_iv_buffer, urandom, h3, List.take_left' (pfx8_length w),
    pfx8]

theorem generate_iv_key (w : World) (s : State) :
    ((generate_iv w s).2.2).key = s.key := by
  obtain ⟨ks, kb, key, piv, ctr, buf, init⟩ := s
  cases piv <;> cases init <;>
    simp [generate_iv, init_iv_buffer] <;> split <;> rfl

/-- Closed form of a fresh persistent run: after `n ≤ maxIvCounter` calls
the world has advanced by the 8 prefix bytes and the state carries counter
`n` and buffer `prefix ‖ counter`. -/
theorem ivIter_closed (w : World) (s : State) (h1 : s.initialized = false)
    (h2 : s.persistent_iv = true) (h0 : s.iv_counter = 0) :
    ∀ n, 1 ≤ n → n ≤ maxIvCounter →
      ivIter n (w, s) =
        (⟨w.stream, w.pos + 8⟩,
         { s with iv_counter := n, iv_buffer := pfx8 w ++ packBE4 n,
                  initialized := true }) := by
  intro n
  induction n with
  | zero => omega
  | succ m ih =>
    intro _ hle
    by_cases hm : m = 0
    · subst hm
      show (let ws := ivIter 0 (w, s); _ : World × State) = _
      simp only [ivIter]
      rw [generate_iv_fresh w s h1 h2]
    · have hm1 : 1 ≤ m := Nat.one_le_iff_ne_zero.mpr hm
      have hmle : m ≤ maxIvCounter := Nat.le_of_succ_le hle
      simp only [ivIter]
      rw [ih hm1 hmle]
      rw [generate_iv_active ⟨w.stream, w.pos + 8⟩
        { s with iv_counter := m, iv_buffer := pfx8 w ++ packBE4 m,
                 initialized := true } rfl h2 (by simp only; omega)]
      simp [List.take_left' (pfx8_length w)]

/-- Closed form of the `n`-th emitted nonce of a fresh persistent run for
`n ≤ maxIvCounter`. -/
theorem nthIv_closed (w : World) (s : State) (h1 : s.initialized = false)
    (h2 : s.persistent_iv = true) (h0 : s.iv_counter = 0) :
    ∀ n, 1 ≤ n → n ≤ maxIvCounter →
      nthIv n (w, s) = pfx8 w ++ packBE4 n := by
  intro n h1n hn
  by_cases hone : n = 1
  · subst hone
    simp only [nthIv, ivIter]
    rw [generate_iv_fresh w s h1 h2]
  · have hm1 : 1 ≤ n - 1 := by omega
    have hmle : n - 1 ≤ maxIvCounter := by omega
    simp only [nthIv]
    rw [ivIter_closed w s h1 h2 h0 (n - 1) hm1 hmle]
    rw [generate_iv_active ⟨w.stream, w.pos + 8⟩
      { s with iv_counter := n - 1, iv_buffer := pfx8 w ++ packBE4 (n - 1),
               initialized := true } rfl h2 (by simp only; omega)]
    simp only
    rw [List.take_left' (pfx8_length w)]
    congr 2
    omega

theorem packBE4_inj (a b : Nat) (ha : a < 2 ^ 32) (hb : b < 2 ^ 32)
    (h : packBE4 a = packBE4 b) : a = b := by
  simp only [packBE4, List.cons.injEq, and_true] at h
  obtain ⟨h3, h2, h1, h0⟩ := h
  have e3 : a / 2 ^ 24 < 256 := by omega
  have f3 : b / 2 ^ 24 < 256 := by omega
  rw [Nat.mod_eq_of_lt e3, Nat.mod_eq_of_lt f3] at h3
  omega

theorem ivIter_key (n : Nat) (w : World) (s : State) :
    ((ivIter n (w, s)).2).key = s.key := by
  induction n with
  | zero => rfl
  | succ m ih =>
    simp only [ivIter]
    rw [generate_iv_key]
    exact ih

/-- With a key already set, `encrypt` is `generate_iv` plus a stateless
engine call. -/
theorem encrypt_key_set (e : Engine) (w : World) (s : State) (p : List Nat)
    (a : Option (List Nat)) (k : List Nat) (hk : s.key = some k) :
    encrypt e w s p a =
      ⟨(generate_iv w s).1,
       (e.enc k (generate_iv w s).1 (effAad a) p).1,
       (e.enc k (generate_iv w s).1 (effAad a) p).2,
       (generate_iv w s).2.1, (generate_iv w s).2.2⟩ := by
  have hkey : ((generate_iv w s).2.2).key = some k := by
    rw [generate_iv_key, hk]
  simp [encrypt, hk, hkey]

theorem encIter_eq_ivIter (e : Engine) (p : List Nat) (a : Option (List Nat))
    (k : List Nat) :
    ∀ (n : Nat) (w : World) (s : State), s.key = some k →
      encIter e p a n (w, s) = ivIter n (w, s) := by
  intro n w s hk
  induction n with
  | zero => rfl
  | succ m ih =>
    simp only [encIter, ivIter, ih]
    have hkey : ((ivIter m (w, s)).2).key = some k := by rw [ivIter_key, hk]
    rw [encrypt_key_set e _ _ p a k hkey]

/-- Closed form of the (key, nonce) pair of the `n`-th `encrypt` call on a
fresh persistent session with key `k`, for `n ≤ maxIvCounter`. -/
theorem nthEncPair_closed (e : Engine) (p : List Nat) (a : Option (List Nat))
    (k : List Nat) (w : World) (s : State) (h1 : s.initialized = false)
    (h2 : s.persistent_iv = true) (h0 : s.iv_counter = 0)
    (hk : s.key = some k) :
    ∀ n, 1 ≤ n → n ≤ maxIvCounter →
      nthEncPair e p a n (w, s) = (some k, pfx8 w ++ packBE4 n) := by
  intro n h1n hn
  have hkey : ((ivIter (n - 1) (w, s)).2).key = some k := by rw [ivIter_key, hk]
  simp only [nthEncPair, encIter_eq_ivIter e p a k (n - 1) w s hk]
  rw [encrypt_key_set e _ _ p a k hkey]
  simp only
  rw [generate_iv_key, hkey]
  have : (generate_iv (ivIter (n - 1) (w, s)).1 (ivIter (n - 1) (w, s)).2).1 =
      nthIv n (w, s) := rfl
  rw [this, nthIv_closed w s h1 h2 h0 n h1n hn]

/-- A concrete deterministic randomness world used to instantiate theorems. -/
def w0 : World := ⟨fun n => n, 0⟩

/-- The all-zero randomness world: every `urandom` call returns zero bytes. -/
def wz : World := ⟨fun _ => 0, 0⟩

/-- An all-zero 16-byte AES-128 key. -/
def kz : List Nat := List.replicate 16 0

/-- A fresh persistent session with the key `kz` installed. -/
def s0k : State := { mkState 128 true with key := some kz }

theorem one_le_maxIvCounter : 1 ≤ maxIvCounter := by norm_num [maxIvCounter]

/-- The nonce of the call right after counter exhaustion of a fresh
persistent run: the prefix is re-drawn from the advanced world and the
counter restarts at 1. -/
theorem nthIv_wrap (w : World) (s : State) (h1 : s.initialized = false)
    (h2 : s.persistent_iv = true) (h0 : s.iv_counter = 0) (n : Nat)
    (hn : n = maxIvCounter + 1) :
    nthIv n (w, s) = pfx8 ⟨w.stream, w.pos + 8⟩ ++ packBE4 1 := by
  have hsub : n - 1 = maxIvCounter := by omega
  simp only [nthIv]
  rw [hsub]
  rw [ivIter_closed w s h1 h2 h0 maxIvCounter one_le_maxIvCounter
    (Nat.le_refl _)]
  rw [generate_iv_exhausted ⟨w.stream, w.pos + 8⟩
    { s with iv_counter := maxIvCounter,
             iv_buffer := pfx8 w ++ packBE4 maxIvCounter,
             initialized := true } rfl h2 (Nat.le_refl maxIvCounter)]

/-- The (key, nonce) pair of the call right after counter exhaustion. -/
theorem nthEncPair_wrap (e : Engine) (p : List Nat) (a : Option (List Nat))
    (k : List Nat) (w : World) (s : State) (h1 : s.initialized = false)
    (h2 : s.persistent_iv = true) (h0 : s.iv_counter = 0)
    (hk : s.key = some k) (n : Nat) (hn : n = maxIvCounter + 1) :
    nthEncPair e p a n (w, s) =
      (some k, pfx8 ⟨w.stream, w.pos + 8⟩ ++ packBE4 1) := by
  have hkey : ((ivIter (n - 1) (w, s)).2).key = some k := by
    rw [ivIter_key, hk]
  simp only [nthEncPair, encIter_eq_ivIter e p a k (n - 1) w s hk]
  rw [encrypt_key_set e _ _ p a k hkey]
  simp only
  rw [generate_iv_key, hkey]
  have hiv : (generate_iv (ivIter (n - 1) (w, s)).1
      (ivIter (n - 1) (w, s)).2).1 = nthIv n (w, s) := rfl
  rw [hiv, nthIv_wrap w s h1 h2 h0 n hn]

theorem c1_pair_small :
    nthEncPair refEngine [1, 2, 3] none 1 (wz, s0k) =
      (some kz, pfx8 wz ++ packBE4 1) :=
  nthEncPair_closed refEngine [1, 2, 3] none kz wz s0k rfl rfl rfl rfl 1
    (by decide) one_le_maxIvCounter

theorem c1_pair_big :
    nthEncPair refEngine [1, 2, 3] none (2 ^ 32) (wz, s0k) =
      (some kz, pfx8 wz ++ packBE4 1) := by
  rw [nthEncPair_wrap refEngine [1, 2, 3] none kz wz s0k rfl rfl rfl rfl
    (2 ^ 32) (by norm_num [maxIvCounter])]
  rfl

/-- C1 — corrected, counterexample: with the all-zero randomness stream the
persistent strategy re-draws the same 8-byte prefix on counter exhaustion,
so the (key, nonce) pair of the 2^32-th `encrypt` call equals that of the
first call, with the key unchanged throughout.  The claimed never-repeat
invariant therefore fails across counter exhaustion. -/
theorem C1_counterexample :
    nthEncPair refEngine [1, 2, 3] none (2 ^ 32) (wz, s0k) =
      nthEncPair refEngine [1, 2, 3] none 1 (wz, s0k) ∧
    (2 ^ 32 : Nat) ≠ 1 := by
  refine ⟨?_, by norm_num⟩
  rw [c1_pair_small, c1_pair_big]

/-- C1 — amended: under the persistent strategy, as long as at most
2^32 − 1 nonces are drawn during the key's lifetime (so the counter is
never exhausted), the (key, nonce) pairs used by distinct `encrypt` calls
never repeat. -/
theorem C1_no_repeat_within_epoch (e : Engine) (p : List Nat)
    (a : Option (List Nat)) (ks : Nat) (k : List Nat) (w : World) (i j : Nat)
    (hi1 : 1 ≤ i) (hiM : i ≤ maxIvCounter) (hj1 : 1 ≤ j)
    (hjM : j ≤ maxIvCounter) (hij : i ≠ j) :
    nthEncPair e p a i (w, { mkState ks true with key := some k }) ≠
      nthEncPair e p a j (w, { mkState ks true with key := some k }) := by
  rw [nthEncPair_closed e p a k w _ rfl rfl rfl rfl i hi1 hiM,
      nthEncPair_closed e p a k w _ rfl rfl rfl rfl j hj1 hjM]
  intro hcon
  have h2 := ((Prod.mk.injEq _ _ _ _).mp hcon).2
  have hiw : i < 2 ^ 32 := by simp only [maxIvCounter] at hiM; omega
  have hjw : j < 2 ^ 32 := by simp only [maxIvCounter] at hjM; omega
  exact hij (packBE4_inj i j hiw hjw (List.append_cancel_left h2))

/-- Witness for the amended C1 at a concrete session and call indices. -/
theorem C1_witness :
    nthEncPair refEngine [1, 2, 3] none 1
        (w0, { mkState 128 true with key := some kz }) ≠
      nthEncPair refEngine [1, 2, 3] none 2
        (w0, { mkState 128 true with key := some kz }) :=
  C1_no_repeat_within_epoch refEngine [1, 2, 3] none 128 kz w0 1 2
    (by decide) (by decide) (by decide) (by decide) (by decide)

/-- C2 — confirmed: on a fresh persistent session, for any `N < 2^32`
sequential `generate_iv` calls, the `i`-th emitted nonce equals the 8-byte
random prefix followed by the 4-byte big-endian counter `i`, all nonces
share that prefix, and distinct calls emit distinct nonces. -/
theorem C2_persistent_nonce_sequence (ks : Nat) (w : World) (N i j : Nat)
    (hN : N < 2 ^ 32) (hi1 : 1 ≤ i) (hiN : i ≤ N) (hj1 : 1 ≤ j) (hjN : j ≤ N)
    (hij : i ≠ j) :
    nthIv i (w, mkState ks true) = pfx8 w ++ packBE4 i ∧
    (nthIv i (w, mkState ks true)).take 8 = pfx8 w ∧
    nthIv i (w, mkState ks true) ≠ nthIv j (w, mkState ks true) := by
  have hmax : ∀ m, m ≤ N → m ≤ maxIvCounter := by
    intro m hm; simp only [maxIvCounter]; omega
  have hi := nthIv_closed w (mkState ks true) rfl rfl rfl i hi1 (hmax i hiN)
  have hj := nthIv_closed w (mkState ks true) rfl rfl rfl j hj1 (hmax j hjN)
  refine ⟨hi, ?_, ?_⟩
  · rw [hi, List.take_left' (pfx8_length w)]
  · rw [hi, hj]
    intro hcon
    exact hij (packBE4_inj i j (by omega) (by omega)
      (List.append_cancel_left hcon))

/-- Witness for C2 at a concrete world and call indices. -/
theorem C2_witness :
    nthIv 1 (w0, mkState 128 true) = pfx8 w0 ++ packBE4 1 ∧
    (nthIv 1 (w0, mkState 128 true)).take 8 = pfx8 w0 ∧
    nthIv 1 (w0, mkState 128 true) ≠ nthIv 2 (w0, mkState 128 true) :=
  C2_persistent_nonce_sequence 128 w0 2 1 2 (by decide) (by decide) (by decide)
    (by decide) (by decide) (by decide)

/-- C8 — confirmed: under the persistent strategy every emitted nonce
carries a counter in [1, 2^32 − 1] in its last four bytes; on exhaustion
`_init_iv_buffer` resets the counter to 0 and draws a fresh prefix, after
which the call emits counter 1; `generate_iv` is total, so exhaustion is
never surfaced as an error. -/
theorem C8_counter_discipline (w : World) (s : State)
    (hp : s.persistent_iv = true) (hb : s.iv_buffer.length = 12) :
    (1 ≤ ((generate_iv w s).2.2).iv_counter ∧
     ((generate_iv w s).2.2).iv_counter ≤ maxIvCounter ∧
     ((generate_iv w s).1).length = 12 ∧
     ((generate_iv w s).1).drop 8 =
       packBE4 (((generate_iv w s).2.2).iv_counter)) ∧
    (s.initialized = true → maxIvCounter ≤ s.iv_counter →
      ((init_iv_buffer w s).2).iv_counter = 0 ∧
      ((generate_iv w s).2.2).iv_counter = 1 ∧
      (generate_iv w s).1 = (urandom 8 w).1 ++ packBE4 1) := by
  cases hinit : s.initialized
  · rw [generate_iv_fresh w s hinit hp]
    refine ⟨⟨Nat.le_refl 1, one_le_maxIvCounter, ?_, ?_⟩, ?_⟩
    · show (pfx8 w ++ packBE4 1).length = 12
      rw [List.length_append, pfx8_length]
      rfl
    · exact List.drop_left' (pfx8_length w)
    · intro htrue
      exact absurd htrue (by decide)
  · by_cases hge : maxIvCounter ≤ s.iv_counter
    · rw [generate_iv_exhausted w s hinit hp hge]
      refine ⟨⟨Nat.le_refl 1, one_le_maxIvCounter, ?_, ?_⟩, ?_⟩
      · show (pfx8 w ++ packBE4 1).length = 12
        rw [List.length_append, pfx8_length]
        rfl
      · exact List.drop_left' (pfx8_length w)
      · intro _ _
        refine ⟨?_, rfl, ?_⟩
        · simp [init_iv_buffer, hp]
        · rw [urandom8_fst]
    · have hlt : s.iv_counter < maxIvCounter := Nat.not_le.mp hge
      rw [generate_iv_active w s hinit hp hlt]
      have htl : (s.iv_buffer.take 8).length = 8 := by
        rw [List.length_take, hb]
        decide
      refine ⟨⟨?_, ?_, ?_, ?_⟩, ?_⟩
      · show 1 ≤ s.iv_counter + 1
        omega
      · show s.iv_counter + 1 ≤ maxIvCounter
        omega
      · show (s.iv_buffer.take 8 ++ packBE4 (s.iv_counter + 1)).length = 12
        rw [List.length_append, htl]
        rfl
      · exact List.drop_left' htl
      · intro _ hge'
        exact absurd hge' hge

/-- Witness for C8 at a fresh concrete session. -/
theorem C8_witness :
    (1 ≤ ((generate_iv w0 (mkState 128 true)).2.2).iv_counter ∧
     ((generate_iv w0 (mkState 128 true)).2.2).iv_counter ≤ maxIvCounter ∧
     ((generate_iv w0 (mkState 128 true)).1).length = 12 ∧
     ((generate_iv w0 (mkState 128 true)).1).drop 8 =
       packBE4 (((generate_iv w0 (mkState 128 true)).2.2).iv_counter)) ∧
    ((mkState 128 true).initialized = true →
      maxIvCounter ≤ (mkState 128 true).iv_counter →
      ((init_iv_buffer w0 (mkState 128 true)).2).iv_counter = 0 ∧
      ((generate_iv w0 (mkState 128 true)).2.2).iv_counter = 1 ∧
      (generate_iv w0 (mkState 128 true)).1 = (urandom 8 w0).1 ++ packBE4 1) :=
  C8_counter_discipline w0 (mkState 128 true) rfl (by decide)

/-- With a key already set, `decrypt` is exactly the engine call with the
effective aad. -/
theorem decrypt_key_set (e : Engine) (s : State) (iv ct tag : List Nat)
    (a : Option (List Nat)) (k : List Nat) (hk : s.key = some k) :
    decrypt e s iv ct tag a =
      match e.dec k iv tag (effAad a) ct with
      | some p => Except.ok p
      | none => Except.error Err.authFailure := by
  unfold decrypt
  rw [hk]

/-- C3 — confirmed: with a key set and an engine satisfying the AEAD
round-trip contract (§6), decrypting the (nonce, ciphertext, tag) triple
returned by `encrypt` with the same session and the same aad returns
exactly the original plaintext. -/
theorem C3_roundtrip (e : Engine) (w : World) (s : State) (p : List Nat)
    (a : Option (List Nat)) (k : List Nat) (hk : s.key = some k)
    (he : ∀ k' n a' p',
      e.dec k' n (e.enc k' n a' p').2 a' (e.enc k' n a' p').1 = some p') :
    decrypt e (encrypt e w s p a).state (encrypt e w s p a).iv
      (encrypt e w s p a).ciphertext (encrypt e w s p a).tag a =
      Except.ok p := by
  rw [encrypt_key_set e w s p a k hk]
  have hkey : ((generate_iv w s).2.2).key = some k := by
    rw [generate_iv_key, hk]
  show decrypt e (generate_iv w s).2.2 (generate_iv w s).1
      (e.enc k (generate_iv w s).1 (effAad a) p).1
      (e.enc k (generate_iv w s).1 (effAad a) p).2 a = Except.ok p
  rw [decrypt_key_set e _ _ _ _ a k hkey,
    he k (generate_iv w s).1 (effAad a) p]

/-- The reference engine satisfies the AEAD round-trip contract. -/
theorem refEngine_roundtrip (k n : List Nat) (a : Option (List Nat))
    (p : List Nat) :
    refEngine.dec k n (refEngine.enc k n a p).2 a (refEngine.enc k n a p).1 =
      some p := by
  simp [refEngine]

/-- A concrete 16-byte AES-128 key of sevens. -/
def kc : List Nat := List.replicate 16 7

/-- Witness for C3 at a concrete keyed session, plaintext and aad. -/
theorem C3_witness :
    decrypt refEngine
      (encrypt refEngine w0 { mkState 128 true with key := some kc }
        [1, 2, 3] (some [9])).state
      (encrypt refEngine w0 { mkState 128 true with key := some kc }
        [1, 2, 3] (some [9])).iv
      (encrypt refEngine w0 { mkState 128 true with key := some kc }
        [1, 2, 3] (some [9])).ciphertext
      (encrypt refEngine w0 { mkState 128 true with key := some kc }
        [1, 2, 3] (some [9])).tag
      (some [9]) = Except.ok [1, 2, 3] :=
  C3_roundtrip refEngine w0 { mkState 128 true with key := some kc }
    [1, 2, 3] (some [9]) kc rfl refEngine_roundtrip

/-- The first `generate_iv` call of the session used in the C5
counterexample, starting from a fresh persistent session. -/
def c5Run1 : List Nat × World × State := generate_iv w0 (mkState 128 true)

/-- The session state right after `set_key` replaced the key following the
first `generate_iv` call. -/
def c5State2 : State :=
  (set_key c5Run1.2.2 (List.replicate 16 5)).toOption.getD (mkState 0 false)

/-- The `generate_iv` call right after the `set_key`. -/
def c5Run2 : List Nat × World × State := generate_iv c5Run1.2.1 c5State2

/-- C5 — corrected, counterexample: after a successful `set_key` the nonce
state is not invalidated: the session stays initialized, keeps the old
8-byte prefix and the old counter, so the next nonce is the old prefix with
counter 2 — not a fresh prefix (which would be `pfx8` of the current world)
with counter 1 as the claim requires. -/
theorem C5_counterexample :
    set_key c5Run1.2.2 (List.replicate 16 5) = Except.ok c5State2 ∧
    c5State2.initialized = true ∧
    c5State2.iv_counter = 1 ∧
    c5Run2.1 = [0, 1, 2, 3, 4, 5, 6, 7, 0, 0, 0, 2] ∧
    c5Run2.1.take 8 = c5Run1.1.take 8 ∧
    c5Run2.1 ≠ pfx8 c5Run1.2.1 ++ packBE4 1 ∧
    c5Run2.2.2.iv_counter = 2 := by decide

/-- C5 — amended: `generate_key` and `set_key` replace the key but leave
the nonce state (counter, IV buffer, initialized flag) untouched;
reinitialization happens only on the first nonce request or on counter
exhaustion. -/
theorem C5_rekey_preserves_nonce_state (w : World) (s : State) (k : List Nat)
    (h : k.length = s.key_bytes) :
    set_key s k = Except.ok { s with key := some k } ∧
    ({ s with key := some k } : State).iv_counter = s.iv_counter ∧
    ({ s with key := some k } : State).iv_buffer = s.iv_buffer ∧
    ({ s with key := some k } : State).initialized = s.initialized ∧
    ((generate_key w s).2.2).iv_counter = s.iv_counter ∧
    ((generate_key w s).2.2).iv_buffer = s.iv_buffer ∧
    ((generate_key w s).2.2).initialized = s.initialized := by
  refine ⟨?_, rfl, rfl, rfl, rfl, rfl, rfl⟩
  rw [set_key, if_neg (not_not_intro h)]

/-- Witness for the amended C5 at a concrete session and key. -/
theorem C5_witness :
    set_key (mkState 128 true) kz =
      Except.ok { (mkState 128 true) with key := some kz } ∧
    ({ (mkState 128 true) with key := some kz } : State).iv_counter =
      (mkState 128 true).iv_counter ∧
    ({ (mkState 128 true) with key := some kz } : State).iv_buffer =
      (mkState 128 true).iv_buffer ∧
    ({ (mkState 128 true) with key := some kz } : State).initialized =
      (mkState 128 true).initialized ∧
    ((generate_key w0 (mkState 128 true)).2.2).iv_counter =
      (mkState 128 true).iv_counter ∧
    ((generate_key w0 (mkState 128 true)).2.2).iv_buffer =
      (mkState 128 true).iv_buffer ∧
    ((generate_key w0 (mkState 128 true)).2.2).initialized =
      (mkState 128 true).initialized :=
  C5_rekey_preserves_nonce_state w0 (mkState 128 true) kz (by decide)

/-- C6 — confirmed: `set_key` fails with the key-length error exactly when
the key length differs from the configured `key_bytes`; on an exact match
it succeeds and installs the key. -/
theorem C6_set_key_length (s : State) (k : List Nat) :
    (set_key s k = Except.error Err.keyLength ↔ k.length ≠ s.key_bytes) ∧
    (k.length = s.key_bytes →
      set_key s k = Except.ok { s with key := some k }) := by
  unfold set_key
  by_cases h : k.length = s.key_bytes
  · rw [if_neg (not_not_intro h)]
    refine ⟨⟨fun hc => by simp at hc, fun hne => absurd h hne⟩, fun _ => rfl⟩
  · rw [if_pos h]
    exact ⟨⟨fun _ => h, fun _ => rfl⟩, fun hc => absurd hc h⟩

/-- Witness for C6: a 16-byte key is accepted by an AES-128 session and a
3-byte key is rejected with the key-length error. -/
theorem C6_witness :
    set_key (mkState 128 true) (List.replicate 16 1) =
      Except.ok { (mkState 128 true) with key := some (List.replicate 16 1) } ∧
    set_key (mkState 128 true) [1, 2, 3] = Except.error Err.keyLength :=
  ⟨(C6_set_key_length (mkState 128 true) (List.replicate 16 1)).2 (by decide),
   (C6_set_key_length (mkState 128 true) [1, 2, 3]).1.mpr (by decide)⟩

/-- C7 — corrected, counterexample: `decrypt` on a keyless session fails
with the `noKeySet` error (the ValueError of the source), which is a
distinct typed failure from the engine's `authFailure`; the claim that
this case fails with AuthenticationFailure is therefore false. -/
theorem C7_counterexample :
    decrypt refEngine (mkState 128 true) (List.replicate 12 0) [1, 2]
        (List.replicate 16 0) none = Except.error Err.noKeySet ∧
    (Except.error Err.noKeySet : Except Err (List Nat)) ≠
      Except.error Err.authFailure :=
  ⟨rfl, by decide⟩

/-- C7 — amended: `decrypt` with no key set fails with the typed,
recoverable `noKeySet` failure and never returns plaintext. -/
theorem C7_no_key (e : Engine) (s : State) (iv ct tag : List Nat)
    (a : Option (List Nat)) (h : s.key = none) :
    decrypt e s iv ct tag a = Except.error Err.noKeySet := by
  unfold decrypt
  rw [h]

/-- Witness for the amended C7 at a concrete keyless session. -/
theorem C7_witness :
    decrypt refEngine (mkState 192 true) [0] [1] [2] none =
      Except.error Err.noKeySet :=
  C7_no_key refEngine (mkState 192 true) [0] [1] [2] none rfl

/-- C10 — confirmed: the empty aad behaves identically to no aad: the
truthiness guard `if associated_data:` keeps both away from the engine,
so `encrypt` and `decrypt` coincide on `some []` and `none`. -/
theorem C10_empty_aad (e : Engine) (w : World) (s : State)
    (p iv ct tag : List Nat) :
    encrypt e w s p (some []) = encrypt e w s p none ∧
    decrypt e s iv ct tag (some []) = decrypt e s iv ct tag none := by
  have h : effAad (some []) = effAad none := rfl
  constructor
  · unfold encrypt
    rw [h]
  · unfold decrypt
    rw [h]

/-- The slice-assignment chain of `encrypt_combined` produces exactly the
concatenation of its three pieces. -/
theorem combine_eq (A B C : List Nat) :
    setSlice (setSlice (setSlice
        (List.replicate (A.length + B.length + C.length) 0) 0 A)
      A.length B) (A.length + B.length) C = A ++ B ++ C := by
  have s1 : setSlice (List.replicate (A.length + B.length + C.length) 0) 0 A
      = A ++ List.replicate (B.length + C.length) 0 := by
    simp only [setSlice, List.take_zero, List.nil_append, Nat.zero_add,
      List.drop_replicate]
    have harith : A.length + B.length + C.length - A.length =
        B.length + C.length := by omega
    rw [harith]
  rw [s1]
  have s2 : setSlice (A ++ List.replicate (B.length + C.length) 0) A.length B
      = A ++ B ++ List.replicate C.length 0 := by
    simp only [setSlice]
    rw [List.take_left, List.drop_append, List.drop_replicate]
    have harith : B.length + C.length - B.length = C.length := by omega
    rw [harith]
  rw [s2]
  simp only [setSlice]
  have hd : (A ++ B ++ List.replicate C.length 0).drop
      (A.length + B.length + C.length) = [] :=
    List.drop_eq_nil_of_le
      (by simp only [List.length_append, List.length_replicate]; omega)
  rw [hd, List.append_nil]
  rw [show A.length + B.length = (A ++ B).length from
    (List.length_append A B).symm]
  rw [List.take_left]

/-- C9 — confirmed: the combined frame is the byte-exact concatenation
nonce ‖ ciphertext ‖ tag of the triple produced by `encrypt`, its length is
the sum of the three lengths, and the returned IV/tag lengths are the
actual slice lengths; no padding or length prefixes are inserted. -/
theorem C9_combined_layout (e : Engine) (w : World) (s : State) (p : List Nat)
    (a : Option (List Nat)) :
    (encrypt_combined e w s p a).1.1 =
      (encrypt e w s p a).iv ++ (encrypt e w s p a).ciphertext ++
        (encrypt e w s p a).tag ∧
    (encrypt_combined e w s p a).1.1.length =
      (encrypt e w s p a).iv.length + (encrypt e w s p a).ciphertext.length +
        (encrypt e w s p a).tag.length ∧
    (encrypt_combined e w s p a).1.2.1 = (encrypt e w s p a).iv.length ∧
    (encrypt_combined e w s p a).1.2.2 = (encrypt e w s p a).tag.length := by
  have h := combine_eq (encrypt e w s p a).iv (encrypt e w s p a).ciphertext
    (encrypt e w s p a).tag
  refine ⟨h, ?_, rfl, rfl⟩
  have h2 := congrArg List.length h
  exact h2.trans (by rw [List.length_append, List.length_append])

/-- No `decrypt` outcome is ever the `malformedFrame` error: the session
only produces `noKeySet`, `authFailure` or a plaintext. -/
theorem decrypt_ne_malformed (e : Engine) (s : State) (iv ct tag : List Nat)
    (a : Option (List Nat)) :
    decrypt e s iv ct tag a ≠ Except.error Err.malformedFrame := by
  unfold decrypt
  cases s.key with
  | none =>
    show Except.error Err.noKeySet ≠ Except.error Err.malformedFrame
    decide
  | some k =>
    show (match e.dec k iv tag (effAad a) ct with
      | some p => Except.ok p
      | none => Except.error Err.authFailure) ≠
      Except.error Err.malformedFrame
    cases e.dec k iv tag (effAad a) ct with
    | none =>
      show Except.error Err.authFailure ≠ Except.error Err.malformedFrame
      decide
    | some p =>
      show Except.ok p ≠ Except.error Err.malformedFrame
      simp

/-- The concrete 20-byte frame of the C4 counterexample: shorter than
`nonce_len + tag_len = 28`. -/
def c4Frame : List Nat :=
  [0, 1, 2, 3, 4, 5, 6, 7, 8, 9, 10, 11, 12, 13, 14, 15, 16, 17, 18, 19]

/-- A keyed session used in the C4 counterexample. -/
def c4State : State :=
  { mkState 128 true with key := some (List.replicate 16 3) }

/-- C4 — corrected, counterexample: on a 20-byte frame (< 28),
`decrypt_combined` does not fail with the `malformedFrame` length error:
it slices the frame (with overlapping nonce and tag slices) and the
failure it reports comes from tag verification (`authFailure`). -/
theorem C4_counterexample :
    c4Frame.length < 12 + 16 ∧
    decrypt_combined refEngine c4State c4Frame 12 16 none ≠
      Except.error Err.malformedFrame ∧
    decrypt_combined refEngine c4State c4Frame 12 16 none =
      Except.error Err.authFailure := by decide

/-- C4 — amended: `decrypt_combined` performs no frame-length validation:
even on a frame shorter than `nonce_len + tag_len` it slices the frame
(first `nonce_len` bytes as nonce, last `tag_len` bytes as tag, the
clamped middle as ciphertext) and delegates to `decrypt`, so the result is
never the `malformedFrame` length error. -/
theorem C4_no_length_check (e : Engine) (s : State) (frame : List Nat)
    (n t : Nat) (a : Option (List Nat)) (ht : 0 < t)
    (h : frame.length < n + t) :
    decrypt_combined e s frame n t a =
      decrypt e s (frame.take n) ((frame.take (frame.length - t)).drop n)
        (frame.drop (frame.length - t)) a ∧
    decrypt_combined e s frame n t a ≠ Except.error Err.malformedFrame :=
  ⟨rfl, decrypt_ne_malformed e s _ _ _ a⟩

/-- Witness for the amended C4 at the concrete short frame. -/
theorem C4_witness :
    (decrypt_combined refEngine c4State c4Frame 12 16 none =
      decrypt refEngine c4State (c4Frame.take 12)
        ((c4Frame.take (c4Frame.length - 16)).drop 12)
        (c4Frame.drop (c4Frame.length - 16)) none) ∧
    decrypt_combined refEngine c4State c4Frame 12 16 none ≠
      Except.error Err.malformedFrame :=
  C4_no_length_check refEngine c4State c4Frame 12 16 none (by decide)
    (by decide)

end AesGcmIot
